import Mathlib

/-!
# Waybackmate: a verification development

Shallow embedding of `waybackmate.go` (package `main`): the line reader `readLines`,
the filename deriver `getFileName`, the capture worker `fetchWebsite`, the report
writer `writeLog` and the orchestrator `main`, followed by theorems about them.

Modelling conventions.

* A Go `string` is a sequence of bytes; it is embedded as a list of byte values
  (`GoString`).  Nothing in the program computes with a byte, bytes are only compared.
* Go `int` values (status code, body size) are embedded as `Int`; the program does no
  arithmetic on them, so no overflow can occur.
* The operating system and the browser are the environment: what a file contains,
  whether a file can be opened or created, and what a browser session delivers are
  inputs of the model.
* A Go function that may end the process (by `os.Exit` or by a run-time panic) returns
  an `Outcome`.
-/

namespace Waybackmate

/-! ## Strings -/

/-- A Go string: its bytes, in order. -/
abbrev GoString := List Nat

/-- The Go string denoted by a string literal of the source: its UTF-8 encoding. -/
def str (s : String) : GoString :=
  (s.toList.flatMap String.utf8EncodeChar).map UInt8.toNat

/-- Scanning loop of `strings.ReplaceAll` for a non-empty pattern `old`.  The first
argument counts the bytes of the occurrence just found that are still to be skipped;
when it is `0` the scan looks for `old` at the current position, emits `new` and skips
the occurrence if it is there, and copies one byte otherwise.  Occurrences are thus
found from left to right and do not overlap. -/
def replaceSkip (old new : GoString) : Nat → GoString → GoString
  | _, [] => []
  | k + 1, _ :: cs => replaceSkip old new k cs
  | 0, c :: cs =>
    if old.isPrefixOf (c :: cs) then new ++ replaceSkip old new (old.length - 1) cs
    else c :: replaceSkip old new 0 cs

/-- Go standard library `strings.ReplaceAll(s, old, new)`: a copy of `s` with all
non-overlapping instances of `old` replaced by `new`.  Every call in the program has a
non-empty pattern (`"http://"`, `"https://"`, `"/"`).  For an empty pattern Go inserts
`new` around every UTF-8 sequence of `s`; that case is outside this model, which
leaves `s` as it is there. -/
def ReplaceAll (s old new : GoString) : GoString :=
  if old = [] then s else replaceSkip old new 0 s

/-- Decimal rendering of a Go `int`, as the verb `%d` prints it. -/
def decimal (n : Int) : GoString := str n.repr

/-- An operand of `fmt.Sprintf`. -/
inductive Operand where
  | string (v : GoString)
  | int (v : Int)

/-- Go standard library `fmt.Sprintf`, for the two directives the program uses: `%s`
with a string operand writes the bytes of the operand, `%d` with an int operand writes
its decimal rendering; each directive consumes the next operand.  An operand is
inserted as it is and is not scanned for directives.  Every other byte of the format
is copied; other directives are outside this model. -/
def Sprintf : GoString → List Operand → GoString
  | 37 :: 115 :: rest, Operand.string v :: args => v ++ Sprintf rest args
  | 37 :: 100 :: rest, Operand.int v :: args => decimal v ++ Sprintf rest args
  | c :: rest, args => c :: Sprintf rest args
  | [], _ => []

/-! ## Process outcomes and files -/

/-- How a call of a Go function ends: it returns a value, it ends the process through
`os.Exit`, or it ends the process through a run-time panic. -/
inductive Outcome (α : Type) where
  | ret (a : α)
  | exit (code : Nat)
  | crash
  deriving DecidableEq

/-- A file opened for writing with `os.Create`: the strings written to it so far,
oldest first. -/
structure File where
  writes : List GoString
  deriving DecidableEq

/-- `(*os.File).WriteString`: appends one string to the file. -/
def File.WriteString (f : File) (s : GoString) : File :=
  { writes := f.writes ++ [s] }

/-- The bytes the file holds. -/
def File.contents (f : File) : GoString := f.writes.flatten

/-! ## The program -/

/-- The struct `Website` of the source. -/
structure Website where
  URL : GoString
  ResponseCode : Int
  ResponseBodySize : Int
  ScreenshotData : List Nat
  deriving DecidableEq

/-- Errors returned by `readLines`: the error of `os.Open`, or the scanner error
`bufio.ErrTooLong`. -/
inductive ReadError where
  | open
  | tooLong
  deriving DecidableEq

/-- The constant `bufio.MaxScanTokenSize`: the size the buffer of a `bufio.Scanner` can
grow to. -/
def MaxScanTokenSize : Nat := 64 * 1024

/-- The helper `dropCR` of `bufio.ScanLines`: drops one trailing carriage return. -/
def dropCR (data : GoString) : GoString :=
  if data.getLast? = some 13 then data.dropLast else data

/-- The loop `for scanner.Scan() { lines = append(lines, scanner.Text()) }` of
`readLines`, with the default split function `bufio.ScanLines`, run on the bytes the
file still has to deliver; `cur` holds the bytes of the line being read.  A newline
ends the line, which is returned without the newline and without one carriage return
before it.  At the end of the file a pending non-empty line is returned the same way.
A line does not fit the buffer of `max` bytes when `max` bytes have been read without
meeting a newline: the scan stops there with `ErrTooLong`.  The result is the slice
`lines` together with `scanner.Err()`. -/
def scanLines (max : Nat) (cur : GoString) : GoString → List GoString × Option ReadError
  | [] => if cur = [] then ([], none) else ([dropCR cur], none)
  | c :: cs =>
    if c = 10 then
      let r := scanLines max [] cs
      (dropCR cur :: r.1, r.2)
    else if max ≤ cur.length + 1 then ([], some ReadError.tooLong)
    else scanLines max (cur ++ [c]) cs

/-- The function `readLines` of the source.  The argument is the file the path names:
`none` when `os.Open` fails, otherwise the bytes of the file. -/
def readLines (file : Option GoString) : List GoString × Option ReadError :=
  match file with
  | none => ([], some ReadError.open)
  | some data => scanLines MaxScanTokenSize [] data

/-- The function `getFileName` of the source. -/
def getFileName (url : GoString) : GoString :=
  let fileName := ReplaceAll url (str "http://") (str "")
  let fileName := ReplaceAll fileName (str "https://") (str "")
  let fileName := ReplaceAll fileName (str "/") (str "_")
  fileName ++ str ".png"

/-- The struct `network.Response` of the library cdproto; the program reads its field
`Status` (an `int64`) only. -/
structure Response where
  Status : Int
  deriving DecidableEq

/-- The struct `network.EventResponseReceived` of the library cdproto; the program reads
its field `Response` only.  That field is declared `Response *Response`, a pointer:
`none` is the nil pointer, which is what the zero value of the struct holds. -/
structure EventResponseReceived where
  Response : Option Response
  deriving DecidableEq

/-- An event delivered to the listener installed with `chromedp.ListenTarget`: a
`*network.EventResponseReceived`, or an event of any other type. -/
inductive Event where
  | responseReceived (ev : EventResponseReceived)
  | other
  deriving DecidableEq

/-- The body of the listener of `fetchWebsite`: the type switch has one case, which
overwrites the variable `responseReceived` with the event; an event of another type
leaves the variable as it is. -/
def listener (responseReceived : EventResponseReceived) (ev : Event) :
    EventResponseReceived :=
  match ev with
  | Event.responseReceived ev => ev
  | Event.other => responseReceived

/-- What the browser session and the file system do during one call of `fetchWebsite`:
the events delivered to the listener before the variable `responseReceived` is read,
whether `chromedp.Run` returns an error (a time-out included), the bytes and the
string `chromedp.Run` stores in `screenshot` and `body`, and whether
`ioutil.WriteFile` returns an error. -/
structure Session where
  events : List Event
  runErr : Bool
  screenshot : List Nat
  body : GoString
  writeErr : Bool

/-- The function `fetchWebsite` of the source.  The result `*Website` is an option, nil
being `none`.  The variable `responseReceived` starts as the zero value of its struct
type, whose `Response` pointer is nil; reading `responseReceived.Response.Status`
through a nil pointer is a run-time panic. -/
def fetchWebsite (url : GoString) (s : Session) : Outcome (Option Website) :=
  let responseReceived := s.events.foldl listener { Response := none }
  if s.runErr then Outcome.ret none
  else
    let _fileName := getFileName url
    if s.writeErr then Outcome.ret none
    else
      match responseReceived.Response with
      | none => Outcome.crash
      | some response =>
        Outcome.ret (some
          { URL := url
            ResponseCode := response.Status
            ResponseBodySize := (s.body.length : Int)
            ScreenshotData := s.screenshot })

/-- The function `writeLog` of the source.  The argument `creatable` tells whether
`os.Create(logFile)` succeeds; when it does not, the process exits with status 1.
The source does not look at what `WriteString` returns, and a write to the created
file is taken to succeed.  The result is the file as it stands when `writeLog`
returns. -/
def writeLog (creatable : Bool) (websites : List Website) : Outcome File :=
  if creatable then
    let f : File := { writes := [] }
    let f := f.WriteString
      (str "<table><tr><th>URL</th><th>Response Code</th><th>Body Size</th><th>Screenshot</th></tr>")
    let f := websites.foldl
      (fun f website => f.WriteString
        (Sprintf
          (str "<tr><td><a href='%s'>%s</a></td><td>%d</td><td>%d</td><td><a href='%s'>Link</a></td></tr>")
          [Operand.string website.URL, Operand.string website.URL,
            Operand.int website.ResponseCode, Operand.int website.ResponseBodySize,
            Operand.string (getFileName website.URL)]))
      f
    let f := f.WriteString (str "</table>")
    Outcome.ret f
  else Outcome.exit 1

/-- The loop `for _, url := range urls` of `main`: the second argument is the slice
`websites` accumulated so far.  The capture worker is a parameter, a function of the
URL. -/
def mainLoop (fetch : GoString → Outcome (Option Website)) :
    List GoString → List Website → Outcome (List Website)
  | [], websites => Outcome.ret websites
  | url :: urls, websites =>
    match fetch url with
    | Outcome.ret none => mainLoop fetch urls websites
    | Outcome.ret (some website) => mainLoop fetch urls (websites ++ [website])
    | Outcome.exit code => Outcome.exit code
    | Outcome.crash => Outcome.crash

/-- The environment of one run of the program: the file named by `-urlfile`, the
browser session each URL gets, and whether the file named by `-logfile` can be
created. -/
structure Env where
  urlFile : Option GoString
  session : GoString → Session
  logCreatable : Bool

/-- The function `main` of the source.  `Outcome.ret f` is the normal end of the
process (exit status 0), `f` being the report file; what is printed on standard output
is not part of the model. -/
def main (env : Env) : Outcome File :=
  match readLines env.urlFile with
  | (_, some _) => Outcome.exit 1
  | (urls, none) =>
    match mainLoop (fun url => fetchWebsite url (env.session url)) urls [] with
    | Outcome.ret websites => writeLog env.logCreatable websites
    | Outcome.exit code => Outcome.exit code
    | Outcome.crash => Outcome.crash

/-! ## Specification-side definitions -/

/-- The relation "`r` is `s` with every occurrence of `p` deleted", occurrences being
taken one after another from the left, the search resuming right behind a deleted
occurrence: either `p` does not occur in `s` and `r` is `s`; or `s` is `a ++ p ++ rest`
where that occurrence of `p` is the first one in `s` (none starts inside `a`), and `r`
is `a` followed by `rest` with every occurrence deleted. -/
inductive DeletesEvery (p : GoString) : GoString → GoString → Prop where
  | done (s : GoString) : ¬ p <:+: s → DeletesEvery p s s
  | step (a rest r : GoString) : ¬ p <:+: a ++ p.dropLast → DeletesEvery p rest r →
      DeletesEvery p (a ++ p ++ rest) (a ++ r)

/-- The byte `/` turned into `_`, every other byte kept. -/
def slashToUnderscore (c : Nat) : Nat := if c = 47 then 95 else c

/-- The row of the report for one capture result, in the words of the specification:
the URL as a hyperlink to itself, the status code and the body size in decimal, and a
hyperlink to the derived screenshot file name. -/
def reportRow (w : Website) : GoString :=
  str "<tr><td><a href='" ++ w.URL ++ str "'>" ++ w.URL ++ str "</a></td><td>" ++
    decimal w.ResponseCode ++ str "</td><td>" ++ decimal w.ResponseBodySize ++
    str "</td><td><a href='" ++ getFileName w.URL ++ str "'>Link</a></td></tr>"

/-- The header row of the report. -/
def reportHeader : GoString :=
  str "<table><tr><th>URL</th><th>Response Code</th><th>Body Size</th><th>Screenshot</th></tr>"

/-! # Theorems -/

/-! ## String literals of the program, byte by byte -/

theorem str_http : str "http://" = [104, 116, 116, 112, 58, 47, 47] := by decide

theorem str_https : str "https://" = [104, 116, 116, 112, 115, 58, 47, 47] := by decide

theorem str_slash : str "/" = [47] := by decide

theorem str_underscore : str "_" = [95] := by decide

theorem str_empty : str "" = [] := by decide

theorem str_png : str ".png" = [46, 112, 110, 103] := by decide

/-! ## Lemmas on `ReplaceAll` -/

theorem replaceSkip_drop (old new : GoString) (k : Nat) (s : GoString) :
    replaceSkip old new k s = replaceSkip old new 0 (s.drop k) := by
  induction s generalizing k with
  | nil => cases k <;> simp [replaceSkip]
  | cons c cs ih =>
    cases k with
    | zero => simp
    | succ k => simp [replaceSkip, ih k]

theorem replaceSkip_of_isPrefixOf (o : Nat) (os new : GoString) (c : Nat) (cs : GoString)
    (h : (o :: os).isPrefixOf (c :: cs) = true) :
    replaceSkip (o :: os) new 0 (c :: cs) =
      new ++ replaceSkip (o :: os) new 0 ((c :: cs).drop (o :: os).length) := by
  simp only [replaceSkip, h, if_true, List.length_cons, Nat.add_sub_cancel, List.drop_succ_cons]
  rw [replaceSkip_drop]

theorem replaceSkip_of_not_isPrefixOf (old new : GoString) (c : Nat) (cs : GoString)
    (h : old.isPrefixOf (c :: cs) = false) :
    replaceSkip old new 0 (c :: cs) = c :: replaceSkip old new 0 cs := by
  simp [replaceSkip, h]

theorem ReplaceAll_append_left (old new t : GoString) (h : old ≠ []) :
    ReplaceAll (old ++ t) old new = new ++ ReplaceAll t old new := by
  cases old with
  | nil => exact absurd rfl h
  | cons o os =>
    have hp : (o :: os).isPrefixOf (o :: (os ++ t)) = true := by
      rw [List.isPrefixOf_iff_prefix]
      exact List.prefix_append (o :: os) t
    simp only [ReplaceAll, h, if_false, List.cons_append]
    rw [replaceSkip_of_isPrefixOf _ _ _ _ _ hp]
    simp

theorem ReplaceAll_cons (old new : GoString) (c : Nat) (cs : GoString) (h : old ≠ [])
    (hp : ¬ old <+: c :: cs) :
    ReplaceAll (c :: cs) old new = c :: ReplaceAll cs old new := by
  have hb : old.isPrefixOf (c :: cs) = false := by
    rw [← Bool.not_eq_true, List.isPrefixOf_iff_prefix]
    exact hp
  simp only [ReplaceAll, h, if_false]
  exact replaceSkip_of_not_isPrefixOf _ _ _ _ hb

theorem ReplaceAll_nil (old new : GoString) : ReplaceAll [] old new = [] := by
  simp [ReplaceAll, replaceSkip]

theorem ReplaceAll_of_not_infix (old new s : GoString) (h : old ≠ []) (hi : ¬ old <:+: s) :
    ReplaceAll s old new = s := by
  induction s with
  | nil => exact ReplaceAll_nil old new
  | cons c cs ih =>
    rw [List.infix_cons_iff] at hi
    push_neg at hi
    rw [ReplaceAll_cons old new c cs h hi.1, ih hi.2]

theorem ReplaceAll_byte (a b : Nat) (s : GoString) :
    ReplaceAll s [a] [b] = s.map (fun c => if c = a then b else c) := by
  induction s with
  | nil => exact ReplaceAll_nil _ _
  | cons c cs ih =>
    by_cases hc : c = a
    · subst hc
      have := ReplaceAll_append_left [c] [b] cs (by simp)
      simp only [List.singleton_append] at this
      rw [this, ih]
      simp
    · have hp : ¬ [a] <+: c :: cs := by
        intro hpre
        rw [List.cons_prefix_cons] at hpre
        exact hc hpre.1.symm
      rw [ReplaceAll_cons [a] [b] c cs (by simp) hp, ih]
      simp [hc]

theorem getFileName_eq (u : GoString) :
    getFileName u =
      (ReplaceAll (ReplaceAll u (str "http://") []) (str "https://") []).map slashToUnderscore
        ++ str ".png" := by
  simp only [getFileName, str_slash, str_underscore, str_empty, ReplaceAll_byte]
  rfl

theorem http_ne_nil : str "http://" ≠ [] := by decide

theorem https_ne_nil : str "https://" ≠ [] := by decide

theorem ReplaceAll_http_https_append (t : GoString) :
    ReplaceAll (str "https://" ++ t) (str "http://") [] =
      str "https://" ++ ReplaceAll t (str "http://") [] := by
  have h := http_ne_nil
  rw [str_http] at h ⊢
  rw [str_https]
  simp only [List.cons_append, List.nil_append]
  rw [ReplaceAll_cons _ _ _ _ h (by simp [List.cons_prefix_cons]),
    ReplaceAll_cons _ _ _ _ h (by simp [List.cons_prefix_cons]),
    ReplaceAll_cons _ _ _ _ h (by simp [List.cons_prefix_cons]),
    ReplaceAll_cons _ _ _ _ h (by simp [List.cons_prefix_cons]),
    ReplaceAll_cons _ _ _ _ h (by simp [List.cons_prefix_cons]),
    ReplaceAll_cons _ _ _ _ h (by simp [List.cons_prefix_cons]),
    ReplaceAll_cons _ _ _ _ h (by simp [List.cons_prefix_cons]),
    ReplaceAll_cons _ _ _ _ h (by simp [List.cons_prefix_cons])]

/-- C2. The derived file name does not depend on the scheme the URL starts with: for
every string `t`, `getFileName ("http://" ++ t)`, `getFileName ("https://" ++ t)` and
`getFileName t` are the same string; for instance `https://a.com/b` and
`http://a.com/b` both give `a.com_b.png`. -/
theorem getFileName_scheme_irrelevant (t : GoString) :
    getFileName (str "http://" ++ t) = getFileName t ∧
    getFileName (str "https://" ++ t) = getFileName t ∧
    getFileName (str "https://a.com/b") = str "a.com_b.png" ∧
    getFileName (str "http://a.com/b") = str "a.com_b.png" := by
  refine ⟨?_, ?_, by decide, by decide⟩
  · rw [getFileName_eq, getFileName_eq, ReplaceAll_append_left _ _ _ http_ne_nil]
    rfl
  · rw [getFileName_eq, getFileName_eq, ReplaceAll_http_https_append,
      ReplaceAll_append_left _ _ _ https_ne_nil]
    rfl

/-- C9. `getFileName` is not injective: two URLs that differ only in the scheme get
the same file name, and so do `a/b` and `a_b`. -/
theorem getFileName_not_injective :
    (∃ u1 u2 : GoString, u1 ≠ u2 ∧ getFileName u1 = getFileName u2) ∧
    (str "http://a.com/b" ≠ str "https://a.com/b" ∧
      getFileName (str "http://a.com/b") = getFileName (str "https://a.com/b")) ∧
    (str "a/b" ≠ str "a_b" ∧ getFileName (str "a/b") = getFileName (str "a_b")) ∧
    ¬ Function.Injective getFileName := by
  have h : str "a/b" ≠ str "a_b" ∧ getFileName (str "a/b") = getFileName (str "a_b") := by
    decide
  refine ⟨⟨_, _, h.1, h.2⟩, by decide, h, ?_⟩
  intro hinj
  exact h.1 (hinj h.2)

theorem slash_not_mem_map (s : GoString) : 47 ∉ s.map slashToUnderscore := by
  intro hm
  rw [List.mem_map] at hm
  obtain ⟨c, _, hc⟩ := hm
  unfold slashToUnderscore at hc
  split at hc <;> omega

/-- C10. For every URL string `u`, `getFileName u` contains no `/` and ends with
`.png`; and when `u` contains neither `http://` nor `https://`, `getFileName u` is `u`
with every `/` turned into `_`, followed by `.png`, so that it is four bytes longer
than `u`. -/
theorem getFileName_safe (u : GoString) :
    47 ∉ getFileName u ∧ str ".png" <:+ getFileName u ∧
    (¬ str "http://" <:+: u → ¬ str "https://" <:+: u →
      getFileName u = u.map slashToUnderscore ++ str ".png" ∧
      (getFileName u).length = u.length + 4) := by
  refine ⟨?_, ?_, ?_⟩
  · rw [getFileName_eq, List.mem_append]
    rintro (h | h)
    · exact slash_not_mem_map _ h
    · revert h
      decide
  · rw [getFileName_eq]
    exact List.suffix_append _ _
  · intro h1 h2
    have e : getFileName u = u.map slashToUnderscore ++ str ".png" := by
      rw [getFileName_eq, ReplaceAll_of_not_infix _ _ _ http_ne_nil h1,
        ReplaceAll_of_not_infix _ _ _ https_ne_nil h2]
    refine ⟨e, ?_⟩
    rw [e, str_png]
    simp

/-- Witness of C10: `a.com/b/c` contains no scheme and gives `a.com_b_c.png`. -/
theorem getFileName_safe_witness :
    ¬ str "http://" <:+: str "a.com/b/c" ∧ ¬ str "https://" <:+: str "a.com/b/c" ∧
    getFileName (str "a.com/b/c") = str "a.com_b_c.png" ∧
    (getFileName (str "a.com/b/c")).length = (str "a.com/b/c").length + 4 :=
  ⟨by decide, by decide,
    ((getFileName_safe (str "a.com/b/c")).2.2 (by decide) (by decide)).1.trans (by decide),
    ((getFileName_safe (str "a.com/b/c")).2.2 (by decide) (by decide)).2⟩

/-! ## `ReplaceAll` with an empty replacement deletes every occurrence -/

theorem not_infix_dropLast (p : GoString) (h : p ≠ []) : ¬ p <:+: p.dropLast := by
  intro hi
  have hl := hi.length_le
  have hp : 0 < p.length := List.length_pos.mpr h
  rw [List.length_dropLast] at hl
  omega

theorem DeletesEvery.cons {p cs r : GoString} (c : Nat) (hd : DeletesEvery p cs r)
    (hp : ¬ p <+: c :: cs) : DeletesEvery p (c :: cs) (c :: r) := by
  cases hd with
  | done _ hn =>
    refine DeletesEvery.done _ ?_
    rw [List.infix_cons_iff]
    exact fun h => h.elim hp hn
  | step a rest r hn hr =>
    have key : ¬ p <:+: (c :: a) ++ p.dropLast := by
      rw [List.cons_append, List.infix_cons_iff]
      rintro (h | h)
      · apply hp
        refine h.trans ?_
        rw [List.cons_prefix_cons]
        refine ⟨rfl, ?_⟩
        rw [List.append_assoc]
        exact (List.prefix_append_right_inj a).mpr
          ((List.dropLast_prefix p).trans (List.prefix_append p rest))
      · exact hn h
    exact DeletesEvery.step (c :: a) rest r key hr

theorem DeletesEvery_ReplaceAll (p : GoString) (h : p ≠ []) (s : GoString) :
    DeletesEvery p s (ReplaceAll s p []) := by
  generalize hn : s.length = n
  induction n using Nat.strong_induction_on generalizing s with
  | _ n ih =>
    cases s with
    | nil =>
      rw [ReplaceAll_nil]
      refine DeletesEvery.done _ ?_
      intro hi
      exact h (List.eq_nil_of_infix_nil hi)
    | cons c cs =>
      by_cases hp : p <+: c :: cs
      · obtain ⟨rest, hrest⟩ := hp
        have hlen : rest.length < n := by
          have := congrArg List.length hrest
          have hpos : 0 < p.length := List.length_pos.mpr h
          rw [List.length_append] at this
          omega
        have hstep := DeletesEvery.step [] rest _
          (by simpa using not_infix_dropLast p h) (ih rest.length hlen rest rfl)
        rw [← hrest, ReplaceAll_append_left _ _ _ h]
        simpa using hstep
      · rw [ReplaceAll_cons _ _ _ _ h hp]
        have hlen : cs.length < n := by
          rw [← hn]
          simp
        exact DeletesEvery.cons c (ih cs.length hlen cs rfl) hp

theorem first_occurrence_le {p a rest a2 rest2 : GoString} (hp : p ≠ [])
    (e : a ++ p ++ rest = a2 ++ p ++ rest2) (h2 : ¬ p <:+: a2 ++ p.dropLast) :
    a2.length ≤ a.length := by
  by_contra hlt
  push_neg at hlt
  apply h2
  have hpos : 0 < p.length := List.length_pos.mpr hp
  have p1 : a ++ p <+: a ++ p ++ rest := List.prefix_append _ _
  have p2 : a2 ++ p.dropLast <+: a ++ p ++ rest := by
    rw [e, List.append_assoc]
    exact (List.prefix_append_right_inj a2).mpr
      ((List.dropLast_prefix p).trans (List.prefix_append p rest2))
  have hle : (a ++ p).length ≤ (a2 ++ p.dropLast).length := by
    simp only [List.length_append, List.length_dropLast]
    omega
  have hpre : a ++ p <+: a2 ++ p.dropLast := List.prefix_of_prefix_length_le p1 p2 hle
  exact (List.suffix_append a p).isInfix.trans hpre.isInfix

theorem DeletesEvery.unique_aux {p s r1 : GoString} (hp : p ≠ []) (h1 : DeletesEvery p s r1) :
    ∀ s2 r2 : GoString, DeletesEvery p s2 r2 → s = s2 → r1 = r2 := by
  induction h1 with
  | done s hn =>
    intro s2 r2 h2 e
    cases h2 with
    | done _ _ => exact e
    | step a rest r _ _ =>
      exfalso
      apply hn
      rw [e]
      exact ⟨a, rest, rfl⟩
  | step a rest r hn hr ih =>
    intro s2 r2 h2 e
    cases h2 with
    | done _ hn2 =>
      exfalso
      apply hn2
      rw [← e]
      exact ⟨a, rest, rfl⟩
    | step a2 rest2 r2 hn2 hr2 =>
      have hlen : a.length = a2.length :=
        Nat.le_antisymm (first_occurrence_le hp e.symm hn) (first_occurrence_le hp e hn2)
      rw [List.append_assoc, List.append_assoc] at e
      obtain ⟨ea, eb⟩ := List.append_inj e hlen
      have er : rest = rest2 := List.append_cancel_left eb
      rw [ea, ih rest2 r2 hr2 er]

/-- The relation `DeletesEvery p` determines its result. -/
theorem DeletesEvery.unique {p s r1 r2 : GoString} (hp : p ≠ [])
    (h1 : DeletesEvery p s r1) (h2 : DeletesEvery p s r2) : r1 = r2 :=
  DeletesEvery.unique_aux hp h1 s r2 h2 rfl

/-- C1, as amended. For every URL string `u`, `getFileName u` is obtained by deleting
every occurrence of `http://` from `u` (occurrences taken from the left, one after
another), then every occurrence of `https://` from what is left, then turning every
`/` into `_` and appending `.png`: such strings `v` and `w` exist, and whichever they
are, the file name is `w` with its slashes turned into underscores, followed by
`.png`.  A later occurrence of a scheme is deleted like the first one. -/
theorem getFileName_deletes_every_scheme (u : GoString) :
    (∃ v w : GoString, DeletesEvery (str "http://") u v ∧ DeletesEvery (str "https://") v w) ∧
    (∀ v w : GoString, DeletesEvery (str "http://") u v → DeletesEvery (str "https://") v w →
      getFileName u = w.map slashToUnderscore ++ str ".png") := by
  have h1 := DeletesEvery_ReplaceAll _ http_ne_nil u
  have h2 := DeletesEvery_ReplaceAll _ https_ne_nil (ReplaceAll u (str "http://") [])
  refine ⟨⟨_, _, h1, h2⟩, ?_⟩
  intro v w hv hw
  have ev := DeletesEvery.unique http_ne_nil hv h1
  subst ev
  rw [DeletesEvery.unique https_ne_nil hw h2]
  exact getFileName_eq u

/-- Witness of C1, as amended: in `http://a/http://b` both occurrences of `http://` are
deleted, which leaves `a/b`, and the file name is `a_b.png`. -/
theorem getFileName_deletes_every_scheme_witness :
    DeletesEvery (str "http://") (str "http://a/http://b") (str "a/b") ∧
    DeletesEvery (str "https://") (str "a/b") (str "a/b") ∧
    getFileName (str "http://a/http://b") = str "a_b.png" :=
  have h1 : DeletesEvery (str "http://") (str "http://a/http://b") (str "a/b") :=
    DeletesEvery.step [] (str "a/http://b") (str "a/b") (by decide)
      (DeletesEvery.step (str "a/") (str "b") (str "b") (by decide)
        (DeletesEvery.done (str "b") (by decide)))
  have h2 : DeletesEvery (str "https://") (str "a/b") (str "a/b") :=
    DeletesEvery.done (str "a/b") (by decide)
  ⟨h1, h2, ((getFileName_deletes_every_scheme (str "http://a/http://b")).2 _ _ h1 h2).trans
    (by decide)⟩

/-- C1, counterexample. On `http://a/http://b` the second `http://` does not survive:
the file name is `a_b.png`, not `a_http:__b.png`. -/
theorem getFileName_later_scheme_removed :
    getFileName (str "http://a/http://b") = str "a_b.png" ∧
    getFileName (str "http://a/http://b") ≠ str "a_http:__b.png" := by
  decide

/-! ## The line reader -/

theorem scanLines_line (max : Nat) (l rest cur : GoString) (hnl : 10 ∉ l)
    (hlen : (cur ++ l).length < max) :
    scanLines max cur (l ++ 10 :: rest) =
      (dropCR (cur ++ l) :: (scanLines max [] rest).1, (scanLines max [] rest).2) := by
  induction l generalizing cur with
  | nil => simp [scanLines]
  | cons c l ih =>
    have hc : c ≠ 10 := fun h => hnl (by simp [h])
    have hl : 10 ∉ l := fun h => hnl (List.mem_cons_of_mem c h)
    have hlt : ¬ max ≤ cur.length + 1 := by
      simp only [List.length_append, List.length_cons] at hlen
      omega
    have hlen2 : ((cur ++ [c]) ++ l).length < max := by
      simpa using hlen
    rw [List.cons_append, scanLines, if_neg hc, if_neg hlt, ih (cur ++ [c]) hl hlen2]
    simp

theorem dropCR_of_no_CR (l : GoString) (h : l.getLast? ≠ some 13) : dropCR l = l := by
  simp [dropCR, h]

theorem scanLines_lines (max : Nat) (ls : List GoString) (hnl : ∀ l ∈ ls, 10 ∉ l)
    (hcr : ∀ l ∈ ls, l.getLast? ≠ some 13) (hlen : ∀ l ∈ ls, l.length < max) :
    scanLines max [] (ls.map (fun l => l ++ [10])).flatten = (ls, none) := by
  induction ls with
  | nil => simp [scanLines]
  | cons l ls ih =>
    have h1 := hnl l (List.mem_cons_self l ls)
    have h2 := hcr l (List.mem_cons_self l ls)
    have h3 := hlen l (List.mem_cons_self l ls)
    have ih2 := ih (fun x hx => hnl x (List.mem_cons_of_mem l hx))
      (fun x hx => hcr x (List.mem_cons_of_mem l hx))
      (fun x hx => hlen x (List.mem_cons_of_mem l hx))
    simp only [List.map_cons, List.flatten_cons, List.append_assoc, List.singleton_append]
    rw [scanLines_line max l _ [] h1 (by simpa using h3), ih2]
    simp [dropCR_of_no_CR l h2]

/-- C7, as amended. For every list `ls` of strings, none containing a newline, none
ending in a carriage return and each shorter than `bufio.MaxScanTokenSize` (65536
bytes), `readLines` applied to the file made of each element of `ls` followed by a
newline returns `ls` and no error: as many strings as lines, in the original order,
empty lines kept, nothing trimmed. -/
theorem readLines_returns_lines (ls : List GoString) (hnl : ∀ l ∈ ls, 10 ∉ l)
    (hcr : ∀ l ∈ ls, l.getLast? ≠ some 13) (hlen : ∀ l ∈ ls, l.length < 65536) :
    readLines (some (ls.map (fun l => l ++ str "\n")).flatten) = (ls, none) ∧
    (readLines (some (ls.map (fun l => l ++ str "\n")).flatten)).1.length = ls.length := by
  have e : str "\n" = [10] := by decide
  have h : readLines (some (ls.map (fun l => l ++ str "\n")).flatten) = (ls, none) := by
    rw [e]
    exact scanLines_lines MaxScanTokenSize ls hnl hcr hlen
  exact ⟨h, by rw [h]⟩

/-- Witness of C7, as amended: three lines, the second one empty, the third one with
blanks around it. -/
theorem readLines_returns_lines_witness :
    readLines (some (str "http://a.com/b\n\n  x \n")) =
      ([str "http://a.com/b", str "", str "  x "], none) :=
  (readLines_returns_lines [str "http://a.com/b", str "", str "  x "]
    (by decide) (by decide) (by decide)).1

/-- C7, counterexample. The line `a` followed by a carriage return, written with its
newline, is read back as `a`: the carriage return before the newline is stripped. -/
theorem readLines_strips_carriage_return :
    readLines (some (([str "a\r"].map (fun l => l ++ str "\n")).flatten)) = ([str "a"], none) ∧
    readLines (some (([str "a\r"].map (fun l => l ++ str "\n")).flatten)) ≠ ([str "a\r"], none) := by
  decide

theorem scanLines_tooLong (max : Nat) (l rest cur : GoString) (hnl : 10 ∉ l) (hne : l ≠ [])
    (hlen : (cur ++ l).length = max) :
    scanLines max cur (l ++ rest) = ([], some ReadError.tooLong) := by
  induction l generalizing cur with
  | nil => exact absurd rfl hne
  | cons c l ih =>
    have hc : c ≠ 10 := fun h => hnl (by simp [h])
    have hl : 10 ∉ l := fun h => hnl (List.mem_cons_of_mem c h)
    rw [List.cons_append, scanLines, if_neg hc]
    by_cases hnil : l = []
    · subst hnil
      have hle : max ≤ cur.length + 1 := by
        simp only [List.length_append, List.length_cons, List.length_nil] at hlen
        omega
      rw [if_pos hle]
    · have hlt : ¬ max ≤ cur.length + 1 := by
        have hpos : 0 < l.length := List.length_pos.mpr hnil
        simp only [List.length_append, List.length_cons] at hlen
        omega
      rw [if_neg hlt]
      exact ih (cur ++ [c]) hl hnil (by simpa using hlen)

/-- A line of 65536 bytes or more does not fit the buffer of the scanner: `readLines`
returns the error `bufio.ErrTooLong`. -/
theorem readLines_line_too_long (l : GoString) (hnl : 10 ∉ l) (hlen : 65536 ≤ l.length) :
    readLines (some (l ++ str "\n")) = ([], some ReadError.tooLong) := by
  have hl : (l.take 65536).length = 65536 := by
    rw [List.length_take]
    omega
  have hne : l.take 65536 ≠ [] := by
    intro h
    rw [h] at hl
    simp at hl
  have h := scanLines_tooLong MaxScanTokenSize (l.take 65536) (l.drop 65536 ++ str "\n") []
    (fun hm => hnl (List.mem_of_mem_take hm)) hne (by rw [List.nil_append, hl, MaxScanTokenSize])
  rw [← List.append_assoc, List.take_append_drop] at h
  exact h

/-! ## The report writer -/

theorem Sprintf_row (u fn : GoString) (c n : Int) :
    Sprintf
      (str "<tr><td><a href='%s'>%s</a></td><td>%d</td><td>%d</td><td><a href='%s'>Link</a></td></tr>")
      [Operand.string u, Operand.string u, Operand.int c, Operand.int n, Operand.string fn] =
    str "<tr><td><a href='" ++ (u ++ (str "'>" ++ (u ++ (str "</a></td><td>" ++
      (decimal c ++ (str "</td><td>" ++ (decimal n ++ (str "</td><td><a href='" ++
        (fn ++ str "'>Link</a></td></tr>"))))))))) := by
  rfl

theorem Sprintf_reportRow (w : Website) :
    Sprintf
      (str "<tr><td><a href='%s'>%s</a></td><td>%d</td><td>%d</td><td><a href='%s'>Link</a></td></tr>")
      [Operand.string w.URL, Operand.string w.URL, Operand.int w.ResponseCode,
        Operand.int w.ResponseBodySize, Operand.string (getFileName w.URL)] =
    reportRow w := by
  rw [Sprintf_row]
  simp only [reportRow, List.append_assoc]

theorem foldl_WriteString (g : Website → GoString) (ws : List Website) (f : File) :
    ws.foldl (fun f website => f.WriteString (g website)) f =
      { writes := f.writes ++ ws.map g } := by
  induction ws generalizing f with
  | nil => simp
  | cons w ws ih =>
    rw [List.foldl_cons, ih]
    simp [File.WriteString]

theorem writeLog_writes (ws : List Website) :
    writeLog true ws =
      Outcome.ret { writes := reportHeader :: (ws.map reportRow ++ [str "</table>"]) } := by
  simp only [writeLog, if_true, Sprintf_reportRow]
  rw [foldl_WriteString]
  simp [File.WriteString, reportHeader]

/-- C3. For every sequence `ws` of capture results the report `writeLog` writes is the
header row, followed by one row per element of `ws` in the same order, followed by
`</table>`; the row of a result is `reportRow`: its URL as a link to itself, its
response code and body size in decimal, and a link to `getFileName` of its URL.  For
the URL `http://x.test/page`, code 200 and size 50 the row shows that URL, `200`, `50`
and a link to `x.test_page.png`. -/
theorem writeLog_report (ws : List Website) :
    (∃ f : File, writeLog true ws = Outcome.ret f ∧
      f.contents =
        str "<table><tr><th>URL</th><th>Response Code</th><th>Body Size</th><th>Screenshot</th></tr>"
          ++ (ws.map reportRow).flatten ++ str "</table>" ∧
      f.writes.length = ws.length + 2) ∧
    reportRow (Website.mk (str "http://x.test/page") 200 50 []) =
      str "<tr><td><a href='http://x.test/page'>http://x.test/page</a></td><td>200</td><td>50</td><td><a href='x.test_page.png'>Link</a></td></tr>" := by
  refine ⟨⟨_, writeLog_writes ws, ?_, ?_⟩, by decide⟩
  · simp [File.contents, reportHeader]
  · simp

/-! ## The capture worker -/

theorem foldl_listener_other (evs : List Event) (r : EventResponseReceived)
    (h : ∀ e ∈ evs, e = Event.other) : evs.foldl listener r = r := by
  induction evs with
  | nil => rfl
  | cons e evs ih =>
    have he : e = Event.other := h e (List.mem_cons_self e evs)
    subst he
    exact ih (fun x hx => h x (List.mem_cons_of_mem _ hx))

theorem foldl_listener_last (before after : List Event) (r0 ev : EventResponseReceived)
    (h : ∀ e ∈ after, e = Event.other) :
    (before ++ Event.responseReceived ev :: after).foldl listener r0 = ev := by
  rw [List.foldl_append, List.foldl_cons]
  exact foldl_listener_other after _ h

/-- C5, as amended. For every sequence of events delivered to the listener that
contains a response-received event, the `ResponseCode` of the `Website` a successful
capture returns is the status code of the last response-received event of the
sequence: the events are `before`, then a response-received event with response `r`,
then events `after` none of which is a response-received event, and the code is
`r.Status` whatever `before` holds. -/
theorem fetchWebsite_last_response (url : GoString) (s : Session) (before after : List Event)
    (r : Response) (hev : s.events = before ++ Event.responseReceived { Response := some r } :: after)
    (hafter : ∀ e ∈ after, e = Event.other) (hrun : s.runErr = false)
    (hwrite : s.writeErr = false) :
    fetchWebsite url s = Outcome.ret (some
      { URL := url, ResponseCode := r.Status, ResponseBodySize := (s.body.length : Int),
        ScreenshotData := s.screenshot }) := by
  simp [fetchWebsite, hev, hrun, hwrite, foldl_listener_last before after _ _ hafter]

/-- Witness of C5, as amended: a response with status 301, then one with status 200,
then an event of another type; the code is 200. -/
theorem fetchWebsite_last_response_witness :
    fetchWebsite (str "http://x.test/")
      { events := [Event.responseReceived { Response := some { Status := 301 } },
          Event.responseReceived { Response := some { Status := 200 } }, Event.other],
        runErr := false, screenshot := [137, 80], body := str "<html></html>",
        writeErr := false } =
    Outcome.ret (some (Website.mk (str "http://x.test/") 200 13 [137, 80])) :=
  fetchWebsite_last_response (str "http://x.test/") _
    [Event.responseReceived { Response := some { Status := 301 } }] [Event.other]
    { Status := 200 } rfl (by decide) rfl rfl

/-- C5, counterexample. Two response-received events, with status 301 and then 200:
the `ResponseCode` returned is 200, the status of the last one, not 301, the status of
the first one. -/
theorem fetchWebsite_not_first_response :
    fetchWebsite (str "http://x.test/")
      { events := [Event.responseReceived { Response := some { Status := 301 } },
          Event.responseReceived { Response := some { Status := 200 } }],
        runErr := false, screenshot := [], body := [], writeErr := false } =
      Outcome.ret (some (Website.mk (str "http://x.test/") 200 0 [])) ∧
    fetchWebsite (str "http://x.test/")
      { events := [Event.responseReceived { Response := some { Status := 301 } },
          Event.responseReceived { Response := some { Status := 200 } }],
        runErr := false, screenshot := [], body := [], writeErr := false } ≠
      Outcome.ret (some (Website.mk (str "http://x.test/") 301 0 [])) := by
  decide

/-- C6, the failing case. When `chromedp.Run` and `ioutil.WriteFile` succeed and no
response-received event was delivered, `fetchWebsite` returns no `Website` with code
0: reading `responseReceived.Response.Status` goes through the nil `Response` pointer
of the zero value and the process panics. -/
theorem fetchWebsite_no_response_crashes (url : GoString) (s : Session)
    (hnone : ∀ e ∈ s.events, e = Event.other) (hrun : s.runErr = false)
    (hwrite : s.writeErr = false) :
    fetchWebsite url s = Outcome.crash := by
  simp [fetchWebsite, hrun, hwrite, foldl_listener_other s.events _ hnone]

/-- Witness of the failing case of C6: the URL `about:blank`, for which the browser
delivers no response-received event. -/
theorem fetchWebsite_no_response_crashes_witness :
    fetchWebsite (str "about:blank")
      { events := [Event.other], runErr := false, screenshot := [137, 80],
        body := str "<html><head></head><body></body></html>", writeErr := false } =
    Outcome.crash :=
  fetchWebsite_no_response_crashes (str "about:blank") _ (by decide) rfl rfl

/-! ## The orchestrator -/

theorem mainLoop_ret (fetch : GoString → Outcome (Option Website)) (f : GoString → Option Website)
    (urls : List GoString) (websites : List Website)
    (h : ∀ u ∈ urls, fetch u = Outcome.ret (f u)) :
    mainLoop fetch urls websites = Outcome.ret (websites ++ urls.filterMap f) := by
  induction urls generalizing websites with
  | nil => simp [mainLoop]
  | cons u urls ih =>
    have hu := h u (List.mem_cons_self u urls)
    have ih2 := fun ws => ih ws (fun x hx => h x (List.mem_cons_of_mem u hx))
    rw [mainLoop, hu]
    cases hf : f u with
    | none => simp [ih2, List.filterMap_cons, hf]
    | some w => simp [ih2, List.filterMap_cons, hf]

theorem main_eq_writeLog (env : Env) (urls : List GoString) (f : GoString → Option Website)
    (hread : readLines env.urlFile = (urls, none))
    (hfetch : ∀ u ∈ urls, fetchWebsite u (env.session u) = Outcome.ret (f u)) :
    main env = writeLog env.logCreatable (urls.filterMap f) := by
  have hl := mainLoop_ret (fun url => fetchWebsite url (env.session url)) f urls [] hfetch
  simp only [List.nil_append] at hl
  simp only [main, hread, hl]

theorem length_filterMap_eq_countP (f : GoString → Option Website) (urls : List GoString) :
    (urls.filterMap f).length = urls.countP (fun u => (f u).isSome) := by
  induction urls with
  | nil => rfl
  | cons u urls ih =>
    cases hf : f u with
    | none => simp [List.filterMap_cons, hf, ih]
    | some w => simp [List.filterMap_cons, hf, ih]

theorem count_le_count_filterMap (f : GoString → Option Website) (urls : List GoString)
    (u : GoString) (w : Website) (h : f u = some w) :
    urls.count u ≤ (urls.filterMap f).count w := by
  induction urls with
  | nil => simp
  | cons x urls ih =>
    by_cases hx : x = u
    · subst hx
      simp only [List.filterMap_cons, h, List.count_cons_self]
      omega
    · have hc : (x :: urls).count u = urls.count u := List.count_cons_of_ne (Ne.symm hx) urls
      rw [hc]
      refine ih.trans ?_
      cases hf : f x with
      | none => simp [List.filterMap_cons, hf]
      | some y =>
        simp only [List.filterMap_cons, hf]
        rw [List.count_cons]
        omega

/-- C4. Whatever each capture gives (the capture worker being any function `f` from
the URL to an optional result), the slice `main` accumulates is the list of the
successful results in input order, `urls.filterMap f`, and `main` passes it to
`writeLog`; so the number of rows is the number of URLs whose capture succeeded, it is
at most the number of URLs, it is that number when every capture succeeds, and a URL
that occurs several times gets as many rows. -/
theorem main_accumulates_successes (f : GoString → Option Website) (urls : List GoString) :
    mainLoop (fun u => Outcome.ret (f u)) urls [] = Outcome.ret (urls.filterMap f) ∧
    (urls.filterMap f).length = urls.countP (fun u => (f u).isSome) ∧
    (urls.filterMap f).length ≤ urls.length ∧
    ((∀ u ∈ urls, (f u).isSome = true) → (urls.filterMap f).length = urls.length) ∧
    (∀ u w, f u = some w → urls.count u ≤ (urls.filterMap f).count w) ∧
    (∃ file : File, writeLog true (urls.filterMap f) = Outcome.ret file ∧
      file.writes.length = (urls.filterMap f).length + 2) ∧
    (∀ env : Env, readLines env.urlFile = (urls, none) →
      (∀ u ∈ urls, fetchWebsite u (env.session u) = Outcome.ret (f u)) →
      main env = writeLog env.logCreatable (urls.filterMap f)) := by
  refine ⟨?_, length_filterMap_eq_countP f urls, List.length_filterMap_le f urls, ?_,
    fun u w h => count_le_count_filterMap f urls u w h, ⟨_, writeLog_writes _, by simp⟩,
    fun env hread hfetch => main_eq_writeLog env urls f hread hfetch⟩
  · simpa using mainLoop_ret (fun u => Outcome.ret (f u)) f urls [] (fun _ _ => rfl)
  · intro hall
    rw [length_filterMap_eq_countP, List.countP_eq_length]
    exact hall

/-- C8. When every capture fails, whatever the URLs read from the input file, `main`
returns normally and the report is the header-only table: the header row directly
followed by `</table>`, without any data row. -/
theorem main_all_captures_fail (env : Env) (urls : List GoString)
    (hread : readLines env.urlFile = (urls, none))
    (hfail : ∀ u ∈ urls, fetchWebsite u (env.session u) = Outcome.ret none)
    (hlog : env.logCreatable = true) :
    ∃ f : File, main env = Outcome.ret f ∧
      f.contents =
        str "<table><tr><th>URL</th><th>Response Code</th><th>Body Size</th><th>Screenshot</th></tr></table>" ∧
      f.writes.length = 2 := by
  have hm := main_eq_writeLog env urls (fun _ => none) hread hfail
  rw [hlog, List.filterMap_eq_nil_iff.mpr (fun _ _ => rfl)] at hm
  refine ⟨_, hm.trans (writeLog_writes []), ?_, ?_⟩
  · decide
  · rfl

/-- Witness of C4: the URL list `http://a.test/`, `http://a.test/`, `http://b.test/`
with every capture succeeding gives three results, the first URL twice. -/
theorem main_accumulates_successes_witness :
    (∀ u ∈ [str "http://a.test/", str "http://a.test/", str "http://b.test/"],
      ((fun u => some (Website.mk u 200 0 [])) u).isSome = true) ∧
    ([str "http://a.test/", str "http://a.test/", str "http://b.test/"].filterMap
      (fun u => some (Website.mk u 200 0 []))).length = 3 ∧
    2 ≤ ([str "http://a.test/", str "http://a.test/", str "http://b.test/"].filterMap
      (fun u => some (Website.mk u 200 0 []))).count (Website.mk (str "http://a.test/") 200 0 []) ∧
    main
      { urlFile := some (str "http://a.test/\nhttp://a.test/\nhttp://b.test/\n"),
        session := fun _ =>
          { events := [Event.responseReceived { Response := some { Status := 200 } }],
            runErr := false, screenshot := [], body := [], writeErr := false },
        logCreatable := true } =
      writeLog true
        [Website.mk (str "http://a.test/") 200 0 [], Website.mk (str "http://a.test/") 200 0 [],
          Website.mk (str "http://b.test/") 200 0 []] :=
  have T := main_accumulates_successes (fun u => some (Website.mk u 200 0 []))
    [str "http://a.test/", str "http://a.test/", str "http://b.test/"]
  ⟨by decide, T.2.2.2.1 (by decide),
    Nat.le_trans (by decide) (T.2.2.2.2.1 (str "http://a.test/") _ rfl),
    T.2.2.2.2.2.2
      { urlFile := some (str "http://a.test/\nhttp://a.test/\nhttp://b.test/\n"),
        session := fun _ =>
          { events := [Event.responseReceived { Response := some { Status := 200 } }],
            runErr := false, screenshot := [], body := [], writeErr := false },
        logCreatable := true }
      (by decide) (by decide)⟩

/-- Witness of C8: two URLs, the browser failing on both; the report is the
header-only table. -/
theorem main_all_captures_fail_witness :
    ∃ f : File,
      main
        { urlFile := some (str "http://a.test/\nhttp://b.test/\n"),
          session := fun _ =>
            { events := [], runErr := true, screenshot := [], body := [], writeErr := false },
          logCreatable := true } = Outcome.ret f ∧
      f.contents =
        str "<table><tr><th>URL</th><th>Response Code</th><th>Body Size</th><th>Screenshot</th></tr></table>" ∧
      f.writes.length = 2 :=
  main_all_captures_fail _ [str "http://a.test/", str "http://b.test/"] (by decide) (by decide) rfl

end Waybackmate
